import Mathlib

/-!
Verification of the Buildkite pipeline-trigger action (`src/main.py`).

The script is embedded shallowly:

* JSON values returned by the Buildkite API are modelled by `JVal`; a build
  record (a JSON object) is an association list `Build`.
* `pipeline_url` embeds the Python function of the same name, including the
  behaviour of `str.split("/", maxsplit=1)` (raising when the separator is
  absent, since unpacking a one-element list fails).
* `ActionContext.from_env` embeds the configuration loader.  The standard
  library function `json.loads` is external to the repository, so the loader
  is parameterised over a parser `String → Option (List (String × String))`;
  theorems state their hypotheses about that parser explicitly.
* The observable behaviour of `main` (polls, sleeps, structured outputs and
  the final `RuntimeError`) is modelled as a trace of events `Ev`; exceptions
  (`KeyError`, an unproductive poll stream) are modelled by `Option`.
-/

/-- A JSON scalar value as found in the build records the script consumes. -/
inductive JVal where
  | jnull
  | jbool (b : Bool)
  | jnum (n : Int)
  | jstr (s : String)
deriving DecidableEq

/-- A build record: a JSON object, modelled as an association list. -/
def Build := List (String × JVal)

instance : DecidableEq Build := by
  unfold Build
  infer_instance

/-- Dictionary lookup, `d[k]` / `d.get(k)` on a Python dict. -/
def dget (b : Build) (k : String) : Option JVal :=
  (b.find? (fun p => p.1 == k)).map (fun p => p.2)

/-- Python truthiness of a JSON scalar (`not value`). -/
def jtruthy : JVal → Bool
  | .jnull => false
  | .jbool b => b
  | .jnum n => n != 0
  | .jstr s => s ≠ ""

/-- Python `str(value)` as used in the f-strings writing outputs. -/
def pstr : JVal → String
  | .jnull => "None"
  | .jbool b => if b then "True" else "False"
  | .jnum n => toString n
  | .jstr s => s

/-- The loop guard `build_info.get("finished_at")` of `wait_for_build`,
truthy exactly when the key is present with a truthy value. -/
def hasFinished (b : Build) : Bool :=
  match dget b "finished_at" with
  | none => false
  | some v => jtruthy v

/-- The list `["scheduled", "running", "passed"]` that `main` tests the final
state against. -/
def acceptedStates : List JVal :=
  [JVal.jstr "scheduled", JVal.jstr "running", JVal.jstr "passed"]

/-- Helper for `pipeline.split("/", maxsplit=1)` on the character list: the
segments before and after the first `/`, or `none` when there is no `/`
(in which case the Python tuple unpacking raises `ValueError`). -/
def splitFirstAux : List Char → Option (List Char × List Char)
  | [] => none
  | c :: rest =>
    if c = '/' then some ([], rest)
    else
      match splitFirstAux rest with
      | none => none
      | some (a, b) => some (c :: a, b)

/-- Embedding of `pipeline_url` from `src/main.py`: split on the first `/`,
reject empty segments or a second `/`, otherwise build the API URL.
`none` models the raised `ValueError`. -/
def pipeline_url (pipeline : String) : Option String :=
  match splitFirstAux pipeline.toList with
  | none => none
  | some (o, p) =>
    if o = [] ∨ p = [] ∨ '/' ∈ p then none
    else some ("https://api.buildkite.com/v2/organizations/" ++ String.mk o ++
      "/pipelines/" ++ String.mk p ++ "/builds")

theorem mk_toList (s : String) : String.mk s.toList = s := rfl

theorem toList_append (s t : String) : (s ++ t).toList = s.toList ++ t.toList := by
  cases s
  cases t
  rfl

theorem splitFirstAux_no_slash (l : List Char) (h : '/' ∉ l) :
    splitFirstAux l = none := by
  induction l with
  | nil => rfl
  | cons c rest ih =>
    simp only [List.mem_cons, not_or] at h
    have hc : ¬ c = '/' := fun hx => h.1 hx.symm
    simp only [splitFirstAux, if_neg hc, ih h.2]

theorem splitFirstAux_append (o r : List Char) (h : '/' ∉ o) :
    splitFirstAux (o ++ '/' :: r) = some (o, r) := by
  induction o with
  | nil => simp [splitFirstAux]
  | cons c rest ih =>
    simp only [List.mem_cons, not_or] at h
    have hc : ¬ c = '/' := fun hx => h.1 hx.symm
    simp only [List.cons_append, splitFirstAux, if_neg hc, List.append_eq,
      ih h.2]

theorem toList_eq_nil (s : String) (h : s.toList = []) : s = "" := by
  have := mk_toList s
  rw [h] at this
  exact this.symm

theorem toList_sep (org pl : String) :
    (org ++ "/" ++ pl).toList = org.toList ++ '/' :: pl.toList := by
  rw [toList_append, toList_append, List.append_assoc]
  rfl

/-- C1: for every pipeline identifier with exactly one `/` separating two
non-empty segments, `pipeline_url` returns
`https://api.buildkite.com/v2/organizations/{org}/pipelines/{pipeline}/builds`. -/
theorem pipeline_url_builds_correct_url (org pl : String)
    (h1 : org ≠ "") (h2 : pl ≠ "")
    (h3 : '/' ∉ org.toList) (h4 : '/' ∉ pl.toList) :
    pipeline_url (org ++ "/" ++ pl) =
      some ("https://api.buildkite.com/v2/organizations/" ++ org ++
        "/pipelines/" ++ pl ++ "/builds") := by
  have hto := toList_sep org pl
  have ho : org.toList ≠ [] := fun hx => h1 (toList_eq_nil org hx)
  have hp : pl.toList ≠ [] := fun hx => h2 (toList_eq_nil pl hx)
  simp only [pipeline_url, hto, splitFirstAux_append org.toList pl.toList h3]
  rw [if_neg]
  · rw [mk_toList, mk_toList]
  · push_neg
    exact ⟨ho, hp, h4⟩

/-- Witness for C1 at the concrete identifier `org/pipe`. -/
theorem pipeline_url_builds_correct_url_witness :
    ("org" : String) ≠ "" ∧ ("pipe" : String) ≠ "" ∧
    '/' ∉ ("org" : String).toList ∧ '/' ∉ ("pipe" : String).toList ∧
    pipeline_url ("org" ++ "/" ++ "pipe") =
      some ("https://api.buildkite.com/v2/organizations/" ++ "org" ++
        "/pipelines/" ++ "pipe" ++ "/builds") :=
  ⟨by decide, by decide, by decide, by decide,
    pipeline_url_builds_correct_url "org" "pipe" (by decide) (by decide)
      (by decide) (by decide)⟩

/-- C2: for every identifier with no `/`, or an empty first segment, or an
empty second segment, or a second segment containing `/`, `pipeline_url`
raises `ValueError` (modelled as `none`). -/
theorem pipeline_url_rejects_malformed (p : String)
    (h : ('/' ∉ p.toList) ∨
      (∃ rest : String, p = "/" ++ rest) ∨
      (∃ org pl : String, p = org ++ "/" ++ pl ∧ '/' ∉ org.toList ∧
        org ≠ "" ∧ (pl = "" ∨ '/' ∈ pl.toList))) :
    pipeline_url p = none := by
  rcases h with h | ⟨rest, hrest⟩ | ⟨org, pl, hp, hno, hne, hbad⟩
  · simp only [pipeline_url, splitFirstAux_no_slash p.toList h]
  · subst hrest
    have hsp : splitFirstAux (("/" : String) ++ rest).toList =
        some ([], rest.toList) := by
      have hto : (("/" : String) ++ rest).toList = [] ++ '/' :: rest.toList := by
        rw [toList_append]
        rfl
      rw [hto]
      exact splitFirstAux_append [] rest.toList (by simp)
    simp only [pipeline_url, hsp]
    simp
  · subst hp
    have hto := toList_sep org pl
    simp only [pipeline_url, hto, splitFirstAux_append org.toList pl.toList hno]
    rw [if_pos]
    rcases hbad with hbad | hbad
    · subst hbad
      exact Or.inr (Or.inl rfl)
    · exact Or.inr (Or.inr hbad)

/-- Witness for C2 at the concrete identifier `abc` (no slash). -/
theorem pipeline_url_rejects_malformed_witness :
    ('/' ∉ ("abc" : String).toList) ∧ pipeline_url "abc" = none :=
  ⟨by decide, pipeline_url_rejects_malformed "abc" (Or.inl (by decide))⟩

/-- An observable event of a run: a `time.sleep(n)`, a poll request
(the authenticated GET in `wait_for_build`), a structured output line
`::set-output name=k::v`, or the raised `RuntimeError`. -/
inductive Ev where
  | sleep (n : Nat)
  | poll
  | output (k v : String)
  | raiseErr (msg : String)
deriving DecidableEq

/-- Embedding of `wait_for_build` from `src/main.py`.  The working record
starts empty, so the guard `not build_info.get("finished_at")` is true on
entry and every iteration sleeps 15 and then issues one GET; the loop stops
with the first response whose `finished_at` is truthy.  The poll responses
are given as a list; `none` models a stream that never reports completion
(the Python loop would spin forever). -/
def wait_for_build : List Build → Option (List Ev × Build)
  | [] => none
  | b :: rest =>
    if hasFinished b then some ([Ev.sleep 15, Ev.poll], b)
    else
      match wait_for_build rest with
      | none => none
      | some (t, r) => some (Ev.sleep 15 :: Ev.poll :: t, r)

/-- The part of `main` between the trigger call and the output block: in
asynchronous mode the trigger response is kept as-is; otherwise
`build_info["url"]` is read (a `KeyError` if absent) and `wait_for_build`
runs. -/
def syncPhase (isAsync : Bool) (trigger : Build) (polls : List Build) :
    Option (List Ev × Build) :=
  if isAsync then some ([], trigger)
  else
    match dget trigger "url" with
    | none => none
    | some _ => wait_for_build polls

/-- The output block of `main`: reads `state`, `id`, `number`, `url` and
`web_url` from the final record (a `KeyError` if any is absent), writes the
six `::set-output` lines, and raises `RuntimeError` when the state is not in
`acceptedStates`. -/
def emitOutputs (dumps : Build → String) (b : Build) : Option (List Ev) :=
  match dget b "state", dget b "id", dget b "number",
        dget b "url", dget b "web_url" with
  | some sv, some iv, some nv, some uv, some wv =>
    some ([Ev.output "id" (pstr iv), Ev.output "number" (pstr nv),
           Ev.output "url" (pstr uv), Ev.output "web_url" (pstr wv),
           Ev.output "state" (pstr sv), Ev.output "data" (dumps b)] ++
      (if sv ∈ acceptedStates then []
       else [Ev.raiseErr ("Build failed with state " ++ pstr sv)]))
  | _, _, _, _, _ => none

/-- Embedding of `main` from `src/main.py` (named `mainRun` because Lean
reserves `main`), starting from the decoded trigger response.  `dumps`
stands for `json.dumps` (external library); `polls` is the stream of
decoded poll responses.  The first read of the trigger record is
`build_info["web_url"]` in the progress line. -/
def mainRun (dumps : Build → String) (isAsync : Bool) (trigger : Build)
    (polls : List Build) : Option (List Ev) :=
  (dget trigger "web_url").bind fun _ =>
    (syncPhase isAsync trigger polls).bind fun wb =>
      (emitOutputs dumps wb.2).map fun outs => wb.1 ++ outs

/-- The last build record a run receives: the trigger response in
asynchronous mode, the final poll response otherwise. -/
def finalRecord (isAsync : Bool) (trigger : Build) (polls : List Build) :
    Option Build :=
  (syncPhase isAsync trigger polls).map (fun p => p.2)

/-- The trace of `n` wait iterations: each sleeps 15 and then polls once. -/
def pairTrace : Nat → List Ev
  | 0 => []
  | n + 1 => Ev.sleep 15 :: Ev.poll :: pairTrace n

/-- A trace `t` contains a structured output for key `k`. -/
def hasOutput (t : List Ev) (k : String) : Prop :=
  ∃ v, Ev.output k v ∈ t

theorem wait_spec (polls : List Build) (t : List Ev) (r : Build)
    (h : wait_for_build polls = some (t, r)) :
    hasFinished r = true ∧
    ∃ pre rest, polls = pre ++ r :: rest ∧
      (∀ b ∈ pre, hasFinished b = false) ∧
      t = pairTrace (pre.length + 1) := by
  induction polls generalizing t with
  | nil => exact absurd h (by simp [wait_for_build])
  | cons b rest ih =>
    by_cases hb : hasFinished b
    · rw [wait_for_build, if_pos hb] at h
      obtain ⟨ht, hr⟩ : [Ev.sleep 15, Ev.poll] = t ∧ b = r := by
        simpa using h
      subst ht hr
      exact ⟨hb, [], rest, rfl, by simp, rfl⟩
    · rw [wait_for_build, if_neg hb] at h
      cases hw : wait_for_build rest with
      | none => rw [hw] at h; exact absurd h (by simp)
      | some p =>
        obtain ⟨t2, r2⟩ := p
        rw [hw] at h
        obtain ⟨ht, hr⟩ : Ev.sleep 15 :: Ev.poll :: t2 = t ∧ r2 = r := by
          simpa using h
        subst ht hr
        obtain ⟨hfin, pre, rest2, hsplit, hpre, htr⟩ := ih t2 hw
        refine ⟨hfin, b :: pre, rest2, by simp [hsplit], ?_, by simp [pairTrace, htr]⟩
        intro x hx
        rcases List.mem_cons.mp hx with hx | hx
        · subst hx; simpa using hb
        · exact hpre x hx

theorem pairTrace_events (n : Nat) (ev : Ev) (h : ev ∈ pairTrace n) :
    ev = Ev.sleep 15 ∨ ev = Ev.poll := by
  induction n with
  | zero => exact absurd h (by simp [pairTrace])
  | succ m ih =>
    rw [pairTrace] at h
    rcases List.mem_cons.mp h with h | h
    · exact Or.inl h
    · rcases List.mem_cons.mp h with h | h
      · exact Or.inr h
      · exact ih h

theorem syncPhase_events (isAsync : Bool) (trigger : Build)
    (polls : List Build) (w : List Ev) (b : Build)
    (h : syncPhase isAsync trigger polls = some (w, b)) :
    ∀ ev ∈ w, ev = Ev.sleep 15 ∨ ev = Ev.poll := by
  cases isAsync with
  | true =>
    obtain ⟨hw, _⟩ : [] = w ∧ trigger = b := by simpa [syncPhase] using h
    subst hw
    simp
  | false =>
    rw [syncPhase, if_neg (by simp)] at h
    cases hu : dget trigger "url" with
    | none => rw [hu] at h; exact absurd h (by simp)
    | some u =>
      rw [hu] at h
      obtain ⟨_, pre, rest, _, _, htr⟩ := wait_spec polls w b h
      intro ev hev
      exact pairTrace_events (pre.length + 1) ev (htr ▸ hev)

theorem main_structure (dumps : Build → String) (isAsync : Bool)
    (trigger : Build) (polls : List Build) (tr : List Ev)
    (h : mainRun dumps isAsync trigger polls = some tr) :
    ∃ w b sv iv nv uv wv,
      syncPhase isAsync trigger polls = some (w, b) ∧
      dget b "state" = some sv ∧ dget b "id" = some iv ∧
      dget b "number" = some nv ∧ dget b "url" = some uv ∧
      dget b "web_url" = some wv ∧
      tr = w ++
        [Ev.output "id" (pstr iv), Ev.output "number" (pstr nv),
         Ev.output "url" (pstr uv), Ev.output "web_url" (pstr wv),
         Ev.output "state" (pstr sv), Ev.output "data" (dumps b)] ++
        (if sv ∈ acceptedStates then []
         else [Ev.raiseErr ("Build failed with state " ++ pstr sv)]) := by
  rw [mainRun] at h
  cases hwu : dget trigger "web_url" with
  | none => rw [hwu] at h; exact absurd h (by simp)
  | some wu =>
    rw [hwu, Option.some_bind] at h
    cases hsp : syncPhase isAsync trigger polls with
    | none => rw [hsp] at h; exact absurd h (by simp)
    | some p =>
      obtain ⟨w, b⟩ := p
      rw [hsp, Option.some_bind] at h
      cases hem : emitOutputs dumps b with
      | none => rw [hem] at h; exact absurd h (by simp)
      | some outs =>
        rw [hem] at h
        have htr : tr = w ++ outs := by
          simp only [Option.map_some] at h
          exact (Option.some.inj h).symm
        rw [emitOutputs] at hem
        cases hsv : dget b "state" with
        | none => rw [hsv] at hem; exact absurd hem (by simp)
        | some sv =>
          cases hiv : dget b "id" with
          | none => rw [hsv, hiv] at hem; exact absurd hem (by simp)
          | some iv =>
            cases hnv : dget b "number" with
            | none => rw [hsv, hiv, hnv] at hem; exact absurd hem (by simp)
            | some nv =>
              cases huv : dget b "url" with
              | none =>
                rw [hsv, hiv, hnv, huv] at hem
                exact absurd hem (by simp)
              | some uv =>
                cases hwv : dget b "web_url" with
                | none =>
                  rw [hsv, hiv, hnv, huv, hwv] at hem
                  exact absurd hem (by simp)
                | some wv =>
                  rw [hsv, hiv, hnv, huv, hwv] at hem
                  have houts := Option.some.inj hem
                  exact ⟨w, b, sv, iv, nv, uv, wv, rfl, hsv, hiv, hnv, huv,
                    hwv, by rw [htr, ← houts, List.append_assoc]⟩

/-- The trigger response used by the spec's concrete scenarios. -/
def trigResp : Build :=
  [("id", JVal.jstr "1"), ("number", JVal.jnum 5), ("url", JVal.jstr "U"),
   ("web_url", JVal.jstr "W"), ("state", JVal.jstr "scheduled")]

/-- A first poll response still lacking `finished_at`. -/
def pollResp1 : Build :=
  [("id", JVal.jstr "1"), ("number", JVal.jnum 5), ("url", JVal.jstr "U"),
   ("web_url", JVal.jstr "W"), ("state", JVal.jstr "running")]

/-- A second poll response carrying a non-empty `finished_at` and state
`passed`. -/
def pollResp2 : Build :=
  [("id", JVal.jstr "1"), ("number", JVal.jnum 5), ("url", JVal.jstr "U"),
   ("web_url", JVal.jstr "W"), ("state", JVal.jstr "passed"),
   ("finished_at", JVal.jstr "2024-01-01T00:00:00Z")]

/-- A completed build record whose state is `failed`. -/
def buildFailed : Build :=
  [("id", JVal.jstr "1"), ("number", JVal.jnum 5), ("url", JVal.jstr "U"),
   ("web_url", JVal.jstr "W"), ("state", JVal.jstr "failed"),
   ("finished_at", JVal.jstr "2024-01-01T00:00:00Z")]

/-- A fixed stand-in for `json.dumps`, used to instantiate witnesses. -/
def dumps0 : Build → String := fun _ => "D"

/-- C3: a run that reaches the output step raises `RuntimeError` exactly when
the final state is not `scheduled`, `running` or `passed`; when it raises,
the six structured outputs were all emitted before the raise. -/
theorem run_raises_iff_state_not_accepted
    (dumps : Build → String) (isAsync : Bool) (trigger : Build)
    (polls : List Build) (tr : List Ev) (b : Build) (sv : JVal)
    (h : mainRun dumps isAsync trigger polls = some tr)
    (hb : finalRecord isAsync trigger polls = some b)
    (hsv : dget b "state" = some sv) :
    ((∃ m, Ev.raiseErr m ∈ tr) ↔ sv ∉ acceptedStates) ∧
    (sv ∉ acceptedStates →
      ∃ pre m, tr = pre ++ [Ev.raiseErr m] ∧
        hasOutput pre "id" ∧ hasOutput pre "number" ∧ hasOutput pre "url" ∧
        hasOutput pre "web_url" ∧ hasOutput pre "state" ∧
        hasOutput pre "data") := by
  obtain ⟨w, b2, sv2, iv, nv, uv, wv, hsp, hsv2, hiv, hnv, huv, hwv, htr⟩ :=
    main_structure dumps isAsync trigger polls tr h
  have hb2 : b2 = b := by
    rw [finalRecord, hsp] at hb
    simpa using hb
  subst hb2
  have hsveq : sv2 = sv := Option.some.inj (hsv2.symm.trans hsv)
  subst hsveq
  have hwev := syncPhase_events isAsync trigger polls w b2 hsp
  by_cases hacc : sv2 ∈ acceptedStates
  · rw [if_pos hacc, List.append_nil] at htr
    refine ⟨⟨?_, fun hn => absurd hacc hn⟩, fun hn => absurd hacc hn⟩
    rintro ⟨m, hm⟩
    rw [htr, List.mem_append] at hm
    rcases hm with hm | hm
    · rcases hwev _ hm with he | he
      · exact Ev.noConfusion he
      · exact Ev.noConfusion he
    · simp at hm
  · rw [if_neg hacc] at htr
    refine ⟨⟨fun _ => hacc,
      fun _ => ⟨"Build failed with state " ++ pstr sv2, by rw [htr]; simp⟩⟩,
      fun _ => ?_⟩
    refine ⟨w ++
      [Ev.output "id" (pstr iv), Ev.output "number" (pstr nv),
       Ev.output "url" (pstr uv), Ev.output "web_url" (pstr wv),
       Ev.output "state" (pstr sv2), Ev.output "data" (dumps b2)],
      "Build failed with state " ++ pstr sv2, htr, ?_, ?_, ?_, ?_, ?_, ?_⟩
    · exact ⟨pstr iv, by simp⟩
    · exact ⟨pstr nv, by simp⟩
    · exact ⟨pstr uv, by simp⟩
    · exact ⟨pstr wv, by simp⟩
    · exact ⟨pstr sv2, by simp⟩
    · exact ⟨dumps b2, by simp⟩

/-- Witness for C3: an asynchronous run whose trigger response already has
state `failed` emits all six outputs and then raises. -/
theorem run_raises_iff_state_not_accepted_witness :
    ((∃ m, Ev.raiseErr m ∈
        ([Ev.output "id" "1", Ev.output "number" "5", Ev.output "url" "U",
          Ev.output "web_url" "W", Ev.output "state" "failed",
          Ev.output "data" "D",
          Ev.raiseErr "Build failed with state failed"] : List Ev)) ↔
      JVal.jstr "failed" ∉ acceptedStates) ∧
    (JVal.jstr "failed" ∉ acceptedStates →
      ∃ pre m,
        ([Ev.output "id" "1", Ev.output "number" "5", Ev.output "url" "U",
          Ev.output "web_url" "W", Ev.output "state" "failed",
          Ev.output "data" "D",
          Ev.raiseErr "Build failed with state failed"] : List Ev) =
          pre ++ [Ev.raiseErr m] ∧
        hasOutput pre "id" ∧ hasOutput pre "number" ∧ hasOutput pre "url" ∧
        hasOutput pre "web_url" ∧ hasOutput pre "state" ∧
        hasOutput pre "data") :=
  run_raises_iff_state_not_accepted dumps0 true buildFailed []
    [Ev.output "id" "1", Ev.output "number" "5", Ev.output "url" "U",
     Ev.output "web_url" "W", Ev.output "state" "failed",
     Ev.output "data" "D", Ev.raiseErr "Build failed with state failed"]
    buildFailed (JVal.jstr "failed") rfl rfl rfl

/-- C4: the synchronous waiter sleeps 15 then polls, repeatedly, until a
response has a non-empty `finished_at`, and returns that response; in the
spec's two-poll scenario the run makes exactly two polls (one sleep each)
and finishes without raising, with state `passed`. -/
theorem wait_polls_until_finished :
    (∀ (polls : List Build) (t : List Ev) (r : Build),
      wait_for_build polls = some (t, r) →
      hasFinished r = true ∧
      ∃ pre rest, polls = pre ++ r :: rest ∧
        (∀ b ∈ pre, hasFinished b = false) ∧
        t = pairTrace (pre.length + 1)) ∧
    (∀ dumps : Build → String,
      mainRun dumps false trigResp [pollResp1, pollResp2] =
        some [Ev.sleep 15, Ev.poll, Ev.sleep 15, Ev.poll,
          Ev.output "id" "1", Ev.output "number" "5", Ev.output "url" "U",
          Ev.output "web_url" "W", Ev.output "state" "passed",
          Ev.output "data" (dumps pollResp2)] ∧
      ∀ m, Ev.raiseErr m ∉ ([Ev.sleep 15, Ev.poll, Ev.sleep 15, Ev.poll,
          Ev.output "id" "1", Ev.output "number" "5", Ev.output "url" "U",
          Ev.output "web_url" "W", Ev.output "state" "passed",
          Ev.output "data" (dumps pollResp2)] : List Ev)) := by
  refine ⟨wait_spec, fun dumps => ⟨rfl, fun m => by simp⟩⟩

/-- Witness for C4: a one-element poll stream whose record is finished. -/
theorem wait_polls_until_finished_witness :
    hasFinished pollResp2 = true ∧
    ∃ pre rest, ([pollResp2] : List Build) = pre ++ pollResp2 :: rest ∧
      (∀ b ∈ pre, hasFinished b = false) ∧
      ([Ev.sleep 15, Ev.poll] : List Ev) = pairTrace (pre.length + 1) :=
  wait_polls_until_finished.1 [pollResp2] [Ev.sleep 15, Ev.poll] pollResp2 rfl

/-- C5: an asynchronous run never polls and its `state` output is the state
field of the trigger response; in the spec's scenario it emits
`state=scheduled` and does not raise. -/
theorem async_run_no_poll_state_from_trigger :
    (∀ (dumps : Build → String) (trigger : Build) (polls : List Build)
        (tr : List Ev),
      mainRun dumps true trigger polls = some tr →
      Ev.poll ∉ tr ∧
      ∀ sv, dget trigger "state" = some sv →
        Ev.output "state" (pstr sv) ∈ tr) ∧
    (∀ dumps : Build → String,
      mainRun dumps true trigResp [] =
        some [Ev.output "id" "1", Ev.output "number" "5", Ev.output "url" "U",
          Ev.output "web_url" "W", Ev.output "state" "scheduled",
          Ev.output "data" (dumps trigResp)] ∧
      ∀ m, Ev.raiseErr m ∉ ([Ev.output "id" "1", Ev.output "number" "5",
          Ev.output "url" "U", Ev.output "web_url" "W",
          Ev.output "state" "scheduled",
          Ev.output "data" (dumps trigResp)] : List Ev)) := by
  constructor
  · intro dumps trigger polls tr h
    obtain ⟨w, b2, sv2, iv, nv, uv, wv, hsp, hsv2, hiv, hnv, huv, hwv, htr⟩ :=
      main_structure dumps true trigger polls tr h
    obtain ⟨hw, hb⟩ : [] = w ∧ trigger = b2 := by
      have : (([] : List Ev), trigger) = (w, b2) := by
        simpa [syncPhase] using hsp
      exact ⟨congrArg Prod.fst this, congrArg Prod.snd this⟩
    subst hw hb
    constructor
    · rw [htr]
      by_cases hacc : sv2 ∈ acceptedStates
      · rw [if_pos hacc]
        simp
      · rw [if_neg hacc]
        simp
    · intro sv hsv
      have hse : sv = sv2 := Option.some.inj (hsv.symm.trans hsv2)
      subst hse
      rw [htr]
      simp
  · intro dumps
    exact ⟨rfl, fun m => by simp⟩

/-- Witness for C5: the spec's asynchronous scenario. -/
theorem async_run_no_poll_state_from_trigger_witness :
    Ev.poll ∉ ([Ev.output "id" "1", Ev.output "number" "5",
      Ev.output "url" "U", Ev.output "web_url" "W",
      Ev.output "state" "scheduled", Ev.output "data" "D"] : List Ev) ∧
    (∀ sv, dget trigResp "state" = some sv →
      Ev.output "state" (pstr sv) ∈ ([Ev.output "id" "1",
        Ev.output "number" "5", Ev.output "url" "U", Ev.output "web_url" "W",
        Ev.output "state" "scheduled", Ev.output "data" "D"] : List Ev)) :=
  async_run_no_poll_state_from_trigger.1 dumps0 trigResp []
    [Ev.output "id" "1", Ev.output "number" "5", Ev.output "url" "U",
     Ev.output "web_url" "W", Ev.output "state" "scheduled",
     Ev.output "data" "D"] rfl

/-- A fixed stand-in for `json.loads` on build records, used to instantiate
witnesses: decodes the fixed text produced by `dumps0` to `trigResp`. -/
def loadsB0 : String → Option Build := fun s =>
  if s = "D" then some trigResp else none

/-- C8: any run reaching the output step emits exactly one `data` output; its
text is `dumps` of the last build record received, so any decoder that
inverts `dumps` on that record recovers the record. -/
theorem data_output_roundtrip (dumps : Build → String)
    (jloads : String → Option Build) (isAsync : Bool) (trigger : Build)
    (polls : List Build) (tr : List Ev) (b : Build)
    (h : mainRun dumps isAsync trigger polls = some tr)
    (hb : finalRecord isAsync trigger polls = some b)
    (hinv : jloads (dumps b) = some b) :
    (∃ s, Ev.output "data" s ∈ tr ∧ jloads s = some b) ∧
    (∀ s, Ev.output "data" s ∈ tr → s = dumps b) := by
  obtain ⟨w, b2, sv2, iv, nv, uv, wv, hsp, hsv2, hiv, hnv, huv, hwv, htr⟩ :=
    main_structure dumps isAsync trigger polls tr h
  have hb2 : b2 = b := by
    rw [finalRecord, hsp] at hb
    simpa using hb
  subst hb2
  have hwev := syncPhase_events isAsync trigger polls w b2 hsp
  constructor
  · refine ⟨dumps b2, ?_, hinv⟩
    rw [htr]
    simp
  · intro s hs
    rw [htr, List.append_assoc, List.mem_append] at hs
    rcases hs with hs | hs
    · rcases hwev _ hs with he | he
      · exact Ev.noConfusion he
      · exact Ev.noConfusion he
    · rw [List.mem_append] at hs
      rcases hs with hs | hs
      · simp only [List.mem_cons, List.not_mem_nil, or_false] at hs
        rcases hs with hs | hs | hs | hs | hs | hs
        · exact absurd (Ev.output.inj hs).1 (by decide)
        · exact absurd (Ev.output.inj hs).1 (by decide)
        · exact absurd (Ev.output.inj hs).1 (by decide)
        · exact absurd (Ev.output.inj hs).1 (by decide)
        · exact absurd (Ev.output.inj hs).1 (by decide)
        · exact (Ev.output.inj hs).2
      · by_cases hacc : sv2 ∈ acceptedStates
        · rw [if_pos hacc] at hs
          exact absurd hs (List.not_mem_nil _)
        · rw [if_neg hacc] at hs
          simp only [List.mem_cons, List.not_mem_nil, or_false] at hs
          exact Ev.noConfusion hs

/-- Witness for C8: the asynchronous scenario with the fixture codec. -/
theorem data_output_roundtrip_witness :
    (∃ s, Ev.output "data" s ∈ ([Ev.output "id" "1", Ev.output "number" "5",
        Ev.output "url" "U", Ev.output "web_url" "W",
        Ev.output "state" "scheduled", Ev.output "data" "D"] : List Ev) ∧
      loadsB0 s = some trigResp) ∧
    (∀ s, Ev.output "data" s ∈ ([Ev.output "id" "1", Ev.output "number" "5",
        Ev.output "url" "U", Ev.output "web_url" "W",
        Ev.output "state" "scheduled", Ev.output "data" "D"] : List Ev) →
      s = dumps0 trigResp) :=
  data_output_roundtrip dumps0 loadsB0 true trigResp []
    [Ev.output "id" "1", Ev.output "number" "5", Ev.output "url" "U",
     Ev.output "web_url" "W", Ev.output "state" "scheduled",
     Ev.output "data" "D"] trigResp rfl rfl rfl

/-- C9: the waiter starts from an empty working record, not the trigger
response, so a synchronous run always sleeps once and polls at least once,
even when the trigger response already carries a non-empty `finished_at`. -/
theorem sync_always_polls_once (dumps : Build → String) (trigger : Build)
    (polls : List Build) (tr : List Ev)
    (hfin : hasFinished trigger = true)
    (h : mainRun dumps false trigger polls = some tr) :
    Ev.sleep 15 ∈ tr ∧ Ev.poll ∈ tr := by
  obtain ⟨w, b2, sv2, iv, nv, uv, wv, hsp, hsv2, hiv, hnv, huv, hwv, htr⟩ :=
    main_structure dumps false trigger polls tr h
  rw [syncPhase, if_neg (by simp)] at hsp
  cases hu : dget trigger "url" with
  | none => rw [hu] at hsp; exact absurd hsp (by simp)
  | some u =>
    rw [hu] at hsp
    obtain ⟨_, pre, rest, _, _, htw⟩ := wait_spec polls w b2 hsp
    have hsl : Ev.sleep 15 ∈ w := by
      rw [htw, pairTrace]
      simp
    have hpl : Ev.poll ∈ w := by
      rw [htw, pairTrace]
      simp
    rw [htr]
    constructor
    · rw [List.append_assoc, List.mem_append]
      exact Or.inl hsl
    · rw [List.append_assoc, List.mem_append]
      exact Or.inl hpl

/-- Witness for C9: a synchronous run whose trigger record is already
finished still polls once. -/
theorem sync_always_polls_once_witness :
    hasFinished pollResp2 = true ∧
    (Ev.sleep 15 ∈ ([Ev.sleep 15, Ev.poll, Ev.output "id" "1",
        Ev.output "number" "5", Ev.output "url" "U", Ev.output "web_url" "W",
        Ev.output "state" "passed", Ev.output "data" "D"] : List Ev) ∧
      Ev.poll ∈ ([Ev.sleep 15, Ev.poll, Ev.output "id" "1",
        Ev.output "number" "5", Ev.output "url" "U", Ev.output "web_url" "W",
        Ev.output "state" "passed", Ev.output "data" "D"] : List Ev)) :=
  ⟨rfl, sync_always_polls_once dumps0 pollResp2 [pollResp2]
    [Ev.sleep 15, Ev.poll, Ev.output "id" "1", Ev.output "number" "5",
     Ev.output "url" "U", Ev.output "web_url" "W",
     Ev.output "state" "passed", Ev.output "data" "D"] rfl rfl⟩

/-- The configuration value object of `src/main.py`. -/
structure ActionContext where
  author : String
  access_token : String
  pipeline : String
  branch : String
  commit : String
  message : String
  env : List (String × String)
  is_async : Bool
  is_test_mode : Bool
deriving DecidableEq

/-- Lookup in the process environment: `env[k]` raising on absence is the
`none` case at use sites; `env.get(k)` is the `Option` itself. -/
def eget (e : List (String × String)) (k : String) : Option String :=
  (e.find? (fun p => p.1 == k)).map (fun p => p.2)

/-- The argument passed to `json.loads`: `env.get("INPUT_ENV") or "\x7b\x7d"`.
A missing variable and an empty string both fall back to the empty-object
text, because the empty string is falsy in Python. -/
def inputEnvText (e : List (String × String)) : String :=
  match eget e "INPUT_ENV" with
  | none => "\x7b\x7d"
  | some s => if s = "" then "\x7b\x7d" else s

/-- Python `str.lower()` as applied to the boolean flag variables, mapping
the ASCII lower-casing over the characters. -/
def pyLower (s : String) : String := String.mk (s.toList.map Char.toLower)

/-- Embedding of `ActionContext.from_env`.  `jparse` stands for `json.loads`
(external library); `none` models any raised `KeyError` or JSON decode
error. -/
def ActionContext.from_env
    (jparse : String → Option (List (String × String)))
    (e : List (String × String)) : Option ActionContext :=
  (eget e "GITHUB_ACTOR").bind fun author =>
  (eget e "INPUT_ACCESS_TOKEN").bind fun tok =>
  (eget e "INPUT_PIPELINE").bind fun pl =>
  (eget e "INPUT_BRANCH").bind fun br =>
  (eget e "INPUT_COMMIT").bind fun cm =>
  (eget e "INPUT_MESSAGE").bind fun ms =>
  (jparse (inputEnvText e)).bind fun ev =>
  some ⟨author, tok, pl, br, cm, ms, ev,
    pyLower ((eget e "INPUT_ASYNC").getD "false") == "true",
    pyLower ((eget e "TEST_MODE").getD "false") == "true"⟩

theorem inputEnvText_none (e : List (String × String))
    (h : eget e "INPUT_ENV" = none) : inputEnvText e = "\x7b\x7d" := by
  simp [inputEnvText, h]

theorem inputEnvText_empty (e : List (String × String))
    (h : eget e "INPUT_ENV" = some "") : inputEnvText e = "\x7b\x7d" := by
  simp [inputEnvText, h]

theorem inputEnvText_some (e : List (String × String)) (s : String)
    (h : eget e "INPUT_ENV" = some s) (hne : ¬ s = "") :
    inputEnvText e = s := by
  simp [inputEnvText, h, hne]

theorem flag_iff (o : Option String) :
    (pyLower (o.getD "false") == "true") = true ↔
      ∃ v, o = some v ∧ pyLower v = "true" := by
  cases o with
  | none =>
    constructor
    · intro hx
      exact absurd hx (by decide)
    · rintro ⟨v, hv, _⟩
      exact Option.noConfusion hv
  | some v => simp [Option.getD, beq_iff_eq]

/-- C6: when the loader succeeds, each boolean flag is true exactly when the
corresponding variable is present and its lower-cased value is `true`;
an absent variable yields `false`. -/
theorem from_env_bool_flags_case_insensitive
    (jparse : String → Option (List (String × String)))
    (e : List (String × String)) (ctx : ActionContext)
    (h : ActionContext.from_env jparse e = some ctx) :
    (ctx.is_async = true ↔
      ∃ v, eget e "INPUT_ASYNC" = some v ∧ pyLower v = "true") ∧
    (ctx.is_test_mode = true ↔
      ∃ v, eget e "TEST_MODE" = some v ∧ pyLower v = "true") := by
  simp only [ActionContext.from_env, Option.bind_eq_some] at h
  obtain ⟨a, ha, tok, htok, pl, hpl, br, hbr, cm, hcm, ms, hms, ev, hev,
    hctx⟩ := h
  have hcx := Option.some.inj hctx
  subst hcx
  exact ⟨flag_iff _, flag_iff _⟩

/-- A minimal stand-in for `json.loads` on environment maps, used to
instantiate witnesses: accepts only the empty-object text. -/
def jparse0 : String → Option (List (String × String)) := fun s =>
  if s = "\x7b\x7d" then some [] else none

/-- A complete process environment, with `INPUT_ENV` set to the empty
string and `INPUT_ASYNC` in upper case. -/
def envFull : List (String × String) :=
  [("GITHUB_ACTOR", "alice"), ("INPUT_ACCESS_TOKEN", "tok"),
   ("INPUT_PIPELINE", "org/pipe"), ("INPUT_BRANCH", "main"),
   ("INPUT_COMMIT", "abc123"), ("INPUT_MESSAGE", "msg"),
   ("INPUT_ENV", ""), ("INPUT_ASYNC", "TRUE")]

/-- The configuration loaded from `envFull`. -/
def ctxFull : ActionContext :=
  ⟨"alice", "tok", "org/pipe", "main", "abc123", "msg", [], true, false⟩

/-- Witness for C6 on `envFull`, whose `INPUT_ASYNC` is `TRUE`. -/
theorem from_env_bool_flags_case_insensitive_witness :
    (ctxFull.is_async = true ↔
      ∃ v, eget envFull "INPUT_ASYNC" = some v ∧ pyLower v = "true") ∧
    (ctxFull.is_test_mode = true ↔
      ∃ v, eget envFull "TEST_MODE" = some v ∧ pyLower v = "true") :=
  from_env_bool_flags_case_insensitive jparse0 envFull ctxFull rfl

theorem eget_filter_ne (e : List (String × String)) (key k : String)
    (h : ¬ k = key) :
    eget (e.filter (fun p => p.1 != key)) k = eget e k := by
  induction e with
  | nil => rfl
  | cons p rest ih =>
    by_cases hk : p.1 = key
    · have hf : (p.1 != key) = false := by simp [hk]
      have hpk : (p.1 == k) = false := by
        simp only [beq_eq_false_iff_ne, ne_eq, hk]
        exact fun hh => h hh.symm
      simp only [List.filter, hf, eget, List.find?, hpk]
      exact ih
    · have hf : (p.1 != key) = true := by simp [hk]
      by_cases hpk : (p.1 == k) = true
      · simp only [List.filter, hf, eget, List.find?, hpk]
      · rw [Bool.not_eq_true] at hpk
        simp only [List.filter, hf, eget, List.find?, hpk]
        exact ih

theorem eget_filter_self (e : List (String × String)) (key : String) :
    eget (e.filter (fun p => p.1 != key)) key = none := by
  induction e with
  | nil => rfl
  | cons p rest ih =>
    by_cases hk : p.1 = key
    · have hf : (p.1 != key) = false := by simp [hk]
      simp only [List.filter, hf]
      exact ih
    · have hf : (p.1 != key) = true := by simp [hk]
      have hpk : (p.1 == key) = false := by
        simp only [beq_eq_false_iff_ne, ne_eq]
        exact hk
      simp only [List.filter, hf, eget, List.find?, hpk]
      exact ih

/-- C7 (amended): the loader fails when a required variable is absent, or
when `INPUT_ENV` is present with a non-empty value that the JSON parser
rejects.  (A present-but-empty `INPUT_ENV` is falsy in Python and is
replaced by the empty-object text before parsing, so it cannot fail.) -/
theorem from_env_fails_on_missing_or_bad_json
    (jparse : String → Option (List (String × String)))
    (e : List (String × String))
    (h : eget e "GITHUB_ACTOR" = none ∨ eget e "INPUT_ACCESS_TOKEN" = none ∨
      eget e "INPUT_PIPELINE" = none ∨ eget e "INPUT_BRANCH" = none ∨
      eget e "INPUT_COMMIT" = none ∨ eget e "INPUT_MESSAGE" = none ∨
      (∃ s, eget e "INPUT_ENV" = some s ∧ ¬ s = "" ∧ jparse s = none)) :
    ActionContext.from_env jparse e = none := by
  cases hopt : ActionContext.from_env jparse e with
  | none => rfl
  | some ctx =>
    exfalso
    simp only [ActionContext.from_env, Option.bind_eq_some] at hopt
    obtain ⟨a, ha, tok, htok, pl, hpl, br, hbr, cm, hcm, ms, hms, ev, hev,
      _⟩ := hopt
    rcases h with h | h | h | h | h | h | ⟨s, hs, hsne, hbad⟩
    · rw [h] at ha
      exact Option.noConfusion ha
    · rw [h] at htok
      exact Option.noConfusion htok
    · rw [h] at hpl
      exact Option.noConfusion hpl
    · rw [h] at hbr
      exact Option.noConfusion hbr
    · rw [h] at hcm
      exact Option.noConfusion hcm
    · rw [h] at hms
      exact Option.noConfusion hms
    · rw [inputEnvText_some e s hs hsne, hbad] at hev
      exact Option.noConfusion hev

/-- Witness for the amended C7: the empty environment lacks every required
variable and the loader fails. -/
theorem from_env_fails_on_missing_or_bad_json_witness :
    eget ([] : List (String × String)) "GITHUB_ACTOR" = none ∧
    ActionContext.from_env jparse0 [] = none :=
  ⟨rfl, from_env_fails_on_missing_or_bad_json jparse0 [] (Or.inl rfl)⟩

/-- Counterexample to C7 as stated: in `envFull` the optional variable
`INPUT_ENV` is present with the empty string, a text the JSON parser
rejects, yet the loader succeeds, because `env.get("INPUT_ENV") or` the
empty-object text replaces any falsy value before parsing. -/
theorem from_env_claim_counterexample :
    eget envFull "INPUT_ENV" = some "" ∧ jparse0 "" = none ∧
    (ActionContext.from_env jparse0 envFull).isSome = true :=
  ⟨rfl, rfl, rfl⟩

/-- C10: a present-but-empty `INPUT_ENV` behaves exactly like an absent one:
the loader result is unchanged by deleting the variable, and the extra
environment map defaults to empty. -/
theorem empty_input_env_like_absent
    (jparse : String → Option (List (String × String)))
    (e : List (String × String))
    (hempty : eget e "INPUT_ENV" = some "")
    (hparse : jparse "\x7b\x7d" = some []) :
    ActionContext.from_env jparse e =
      ActionContext.from_env jparse
        (e.filter (fun p => p.1 != "INPUT_ENV")) ∧
    (∀ ctx, ActionContext.from_env jparse e = some ctx → ctx.env = []) := by
  constructor
  · simp only [ActionContext.from_env]
    rw [eget_filter_ne e "INPUT_ENV" "GITHUB_ACTOR" (by decide),
      eget_filter_ne e "INPUT_ENV" "INPUT_ACCESS_TOKEN" (by decide),
      eget_filter_ne e "INPUT_ENV" "INPUT_PIPELINE" (by decide),
      eget_filter_ne e "INPUT_ENV" "INPUT_BRANCH" (by decide),
      eget_filter_ne e "INPUT_ENV" "INPUT_COMMIT" (by decide),
      eget_filter_ne e "INPUT_ENV" "INPUT_MESSAGE" (by decide),
      eget_filter_ne e "INPUT_ENV" "INPUT_ASYNC" (by decide),
      eget_filter_ne e "INPUT_ENV" "TEST_MODE" (by decide),
      inputEnvText_empty e hempty,
      inputEnvText_none _ (eget_filter_self e "INPUT_ENV")]
  · intro ctx hctx
    simp only [ActionContext.from_env, Option.bind_eq_some] at hctx
    obtain ⟨a, ha, tok, htok, pl, hpl, br, hbr, cm, hcm, ms, hms, ev, hev,
      hc⟩ := hctx
    rw [inputEnvText_empty e hempty, hparse] at hev
    have hev2 := Option.some.inj hev
    have hcc := Option.some.inj hc
    subst hcc
    exact hev2.symm

/-- Witness for C10 on `envFull`, whose `INPUT_ENV` is the empty string. -/
theorem empty_input_env_like_absent_witness :
    eget envFull "INPUT_ENV" = some "" ∧
    jparse0 "\x7b\x7d" = some [] ∧
    (ActionContext.from_env jparse0 envFull =
      ActionContext.from_env jparse0
        (envFull.filter (fun p => p.1 != "INPUT_ENV")) ∧
    (∀ ctx, ActionContext.from_env jparse0 envFull = some ctx →
      ctx.env = [])) :=
  ⟨rfl, rfl, empty_input_env_like_absent jparse0 envFull rfl rfl⟩
